import Mathlib

/-!
# Verification of the reactive-fs in-memory filesystem (`src/memory-fs.ts`)

This file shallowly embeds the synchronous core of `MemoryFileSystem`
(`src/memory-fs.ts`).  The asynchronous contract methods only wrap the
synchronous ones in a deferred result, so the claims are settled against the
synchronous core.  Throwing an exception is modelled by an `Option String`
error component carrying the thrown message; since JavaScript exceptions do
not roll back mutations already performed, every operation returns the
(possibly mutated) tree and the list of events emitted before the throw.

The node classes (`File`, `Directory`) live in `api.ts`/`model.ts` which are
not part of the sources here; they are modelled from the spec's data model
(§3): a file has a name, a full path and an optional text content (call
sites construct files both with and without content); a directory has a
name, a full path and an ordered list of children.
-/

namespace ReactiveFs

/-- Modelled from the spec: node data model of §3.  `File` content is
optional because `parseTree` and `loadDirectoryChildrenSync` construct files
without content. -/
inductive FsNode where
  | file (name fullPath : String) (content : Option String)
  | dir (name fullPath : String) (children : List FsNode)
  deriving Repr

/-- Events emitted by the memory filesystem (`this.events.emit(...)` calls). -/
inductive FsEvent where
  | fileCreated (fullPath newContent : String)
  | fileChanged (fullPath newContent : String)
  | fileDeleted (fullPath : String)
  | directoryCreated (fullPath : String)
  | directoryDeleted (fullPath : String)
  deriving Repr, DecidableEq

/-- Modelled from the spec: the single canonical path separator (§3, §6). -/
def pathSeparator : String := "/"

/-- Modelled from the spec: split a path into its `/`-separated pieces
(character-level worker; `utils.ts` is not among the sources). -/
def splitSep : List Char → List Char → List (List Char)
  | [], acc => [acc.reverse]
  | c :: cs, acc =>
    if c = '/' then acc.reverse :: splitSep cs [] else splitSep cs (c :: acc)

/-- Modelled from the spec: `getPathNodes` from `utils.ts` splits a path on
the canonical separator and drops empty segments, so the root path `''`
parses to `[]`. -/
def getPathNodes (p : String) : List String :=
  ((splitSep p.data []).filter (fun s => s ≠ [])).map (fun s => String.mk s)

/-- `pathArr.join(pathSeparator)` as used by `saveFileSync`. -/
def joinPath : List String → String
  | [] => ""
  | [x] => x
  | x :: xs => x ++ pathSeparator ++ joinPath xs

/-- The accumulated path of a child: the parent's full path joined with the
child's name (`current.fullPath ? [current.fullPath, name].join(pathSeparator)
: name` in `ensureDirectorySync`). -/
def joinUnder (pp n : String) : String :=
  if pp = "" then n else pp ++ pathSeparator ++ n

/-- The `name` property of a node. -/
def FsNode.name : FsNode → String
  | .file n _ _ => n
  | .dir n _ _ => n

/-- The `fullPath` property of a node. -/
def FsNode.fullPath : FsNode → String
  | .file _ f _ => f
  | .dir _ f _ => f

/-- `isDir` from `api.ts`: the node is a `Directory`. -/
def isDir : FsNode → Bool
  | .dir .. => true
  | _ => false

/-- `isFile` from `api.ts`: the node is a `File`. -/
def isFile : FsNode → Bool
  | .file .. => true
  | _ => false

/-- `find(children, {name})` from lodash: first child with the given name. -/
def findChild (children : List FsNode) (name : String) : Option FsNode :=
  children.find? (fun c => c.name = name)

/-- Mutating the object found by `find(children, {name})` in place: replace
the first child carrying the given name. -/
def replaceChild : List FsNode → String → FsNode → List FsNode
  | [], _, _ => []
  | c :: cs, name, sub =>
    if c.name = name then sub :: cs else c :: replaceChild cs name sub

/-- `getPathTarget(pathArr)`: walk the segments from `current`, descending
only through directories; `null` when a segment is missing or is a file. -/
def getPathTarget : FsNode → List String → Option FsNode
  | current, [] => some current
  | current, name :: rest =>
    match current with
    | .dir _ _ children =>
      match findChild children name with
      | some (.dir n f cs) => getPathTarget (.dir n f cs) rest
      | _ => none
    | .file .. => none

/-- The fresh store's root: `new Directory('', '')`. -/
def emptyRoot : FsNode := .dir "" "" []

/-- Apply a transformation to the children array of the directory reached by
walking `path` from `root`; models in-place mutation of the `Directory`
object returned by `getPathTarget`.  When the walk fails the tree is
returned unchanged (the source only mutates after a successful lookup). -/
def modifyDirAt : FsNode → List String → (List FsNode → List FsNode) → FsNode
  | .dir n f children, [], g => .dir n f (g children)
  | .dir n f children, name :: rest, g =>
    (match findChild children name with
     | some (.dir dn df dcs) =>
       .dir n f (replaceChild children name (modifyDirAt (.dir dn df dcs) rest g))
     | _ => .dir n f children)
  | other, _, _ => other

/-- The `reduce` body of `ensureDirectorySync`: walk the parsed segments,
descending through existing directories, creating a fresh directory (and
emitting `directoryCreated`) for each missing segment, and throwing when a
segment is occupied by a file.  Mutations performed before a throw are kept,
exactly as in the source. -/
def ensureDirs : FsNode → List String → FsNode × List FsEvent × Option String
  | current, [] => (current, [], none)
  | current, name :: rest =>
    match current with
    | .dir cname cfull children =>
      (match findChild children name with
       | some (.dir dn df dcs) =>
         let r := ensureDirs (.dir dn df dcs) rest
         (.dir cname cfull (replaceChild children name r.1), r.2.1, r.2.2)
       | some (.file _ ff _) =>
         (.dir cname cfull children, [], some ("File is not a directory " ++ ff))
       | none =>
         let newFull := if cfull = "" then name else cfull ++ pathSeparator ++ name
         let r := ensureDirs (.dir name newFull []) rest
         (.dir cname cfull (children ++ [r.1]),
          FsEvent.directoryCreated newFull :: r.2.1, r.2.2))
    | .file .. => (current, [], none)

/-- `ensureDirectorySync(fullPath)` of `src/memory-fs.ts`. -/
def ensureDirectorySync (ign : String → Bool) (root : FsNode) (fullPath : String) :
    FsNode × List FsEvent × Option String :=
  if ign fullPath then
    (root, [], some ("Unable to read and write ignored path: '" ++ fullPath ++ "'"))
  else ensureDirs root (getPathNodes fullPath)

/-- `saveFileSync(fullPath, newContent)` of `src/memory-fs.ts`. -/
def saveFileSync (ign : String → Bool) (root : FsNode) (fullPath newContent : String) :
    FsNode × List FsEvent × Option String :=
  if ign fullPath then
    (root, [], some ("Unable to save ignored path: '" ++ fullPath ++ "'"))
  else
    match (getPathNodes fullPath).getLast? with
    | none => (root, [], some "root is not a legal file name")
    | some name =>
      let pathArr := (getPathNodes fullPath).dropLast
      let r := ensureDirectorySync ign root (joinPath pathArr)
      match r.2.2 with
      | some e => (r.1, r.2.1, some e)
      | none =>
        match getPathTarget r.1 pathArr with
        | some (.dir _ _ pchildren) =>
          (match findChild pchildren name with
           | some (.dir ..) =>
             (r.1, r.2.1, some ("file save error for path '" ++ fullPath ++ "'"))
           | some (.file fn ff fc) =>
             if fc = some newContent then (r.1, r.2.1, none)
             else
               (modifyDirAt r.1 pathArr
                  (fun cs => replaceChild cs name (.file fn ff (some newContent))),
                r.2.1 ++ [FsEvent.fileChanged fullPath newContent], none)
           | none =>
             (modifyDirAt r.1 pathArr
                (fun cs => cs ++ [FsNode.file name fullPath (some newContent)]),
              r.2.1 ++ [FsEvent.fileCreated fullPath newContent], none))
        | _ =>
          (r.1, r.2.1,
           some ("unexpected error: not a legal file name? '" ++ fullPath ++ "'"))

/-- `deleteFileSync(fullPath)` of `src/memory-fs.ts`. -/
def deleteFileSync (ign : String → Bool) (root : FsNode) (fullPath : String) :
    FsNode × List FsEvent × Option String :=
  let pathArr := getPathNodes fullPath
  let parent := if pathArr.length ≠ 0 then getPathTarget root pathArr.dropLast else none
  match parent with
  | some (.dir _ _ pchildren) =>
    if ign fullPath then (root, [], none)
    else
      match findChild pchildren (pathArr.getLastD "") with
      | some (.file fn _ _) =>
        (modifyDirAt root pathArr.dropLast (fun cs => cs.filter (fun c => c.name ≠ fn)),
         [FsEvent.fileDeleted fullPath], none)
      | some (.dir ..) =>
        (root, [], some ("Directory is not a file '" ++ fullPath ++ "'"))
      | none => (root, [], none)
  | _ => (root, [], none)

mutual
/-- `recursiveEmitDeletion(node)` of `src/memory-fs.ts`: emits
`directoryDeleted` for the directory, then the events of its children. -/
def recursiveEmitDeletion : FsNode → List FsEvent
  | .dir _ f cs => FsEvent.directoryDeleted f :: emitDeletionChildren cs
  | .file .. => []

/-- The `forEach` body of `recursiveEmitDeletion`: for each child, the
recursive events when the child is a directory, followed — unconditionally —
by a `fileDeleted` event for the child. -/
def emitDeletionChildren : List FsNode → List FsEvent
  | [] => []
  | c :: cs =>
    (match c with
     | .dir dn df dcs => recursiveEmitDeletion (.dir dn df dcs)
     | .file .. => []) ++ (FsEvent.fileDeleted c.fullPath :: emitDeletionChildren cs)
end

/-- `deleteDirectorySync(fullPath, recursive)` of `src/memory-fs.ts`. -/
def deleteDirectorySync (ign : String → Bool) (root : FsNode) (fullPath : String)
    (recursive : Bool) : FsNode × List FsEvent × Option String :=
  let pathArr := getPathNodes fullPath
  if pathArr.length = 0 then (root, [], some "Can't delete root directory")
  else
    match getPathTarget root pathArr.dropLast with
    | some (.dir _ _ pchildren) =>
      if ign fullPath then (root, [], none)
      else
        match findChild pchildren (pathArr.getLastD "") with
        | some (.file ..) =>
          (root, [], some ("File is not a directory '" ++ fullPath ++ "'"))
        | some (.dir dn df dcs) =>
          if !recursive && dcs.length ≠ 0 then
            (root, [], some ("Directory is not empty '" ++ fullPath ++ "'"))
          else
            (modifyDirAt root pathArr.dropLast
               (fun cs => cs.filter (fun c => c.name ≠ dn)),
             recursiveEmitDeletion (.dir dn df dcs), none)
        | none => (root, [], none)
    | _ => (root, [], none)

mutual
/-- `parseTree(node)` of `src/memory-fs.ts`: deep copy of a directory in
which every file is rebuilt as `new File(child.name, child.fullPath)` —
without its content. -/
def parseTree : FsNode → FsNode
  | .dir n f cs => .dir n f (parseChildren cs)
  | .file n f c => .file n f c

/-- The children `map` of `parseTree`. -/
def parseChildren : List FsNode → List FsNode
  | [] => []
  | c :: cs =>
    (match c with
     | .dir dn df dcs => parseTree (.dir dn df dcs)
     | .file fn ff _ => .file fn ff none) :: parseChildren cs
end

/-- `loadTextFileSync(fullPath)` of `src/memory-fs.ts`.  Reads return the
tree untouched and emit no events; the result is the third component. -/
def loadTextFileSync (ign : String → Bool) (root : FsNode) (fullPath : String) :
    FsNode × List FsEvent × Except String String :=
  if ign fullPath then
    (root, [], .error ("Unable to read ignored path: '" ++ fullPath ++ "'"))
  else
    let pathArr := getPathNodes fullPath
    let parent := if pathArr.length ≠ 0 then getPathTarget root pathArr.dropLast else none
    match parent with
    | some (.dir _ _ pchildren) =>
      (match findChild pchildren (pathArr.getLastD "") with
       | some (.file _ _ c) => (root, [], .ok (c.getD ""))
       | some (.dir ..) => (root, [], .error ("File is a directory " ++ fullPath))
       | none => (root, [], .error ("Cannot find file " ++ fullPath)))
    | _ => (root, [], .error ("Cannot find file " ++ fullPath))

/-- `loadDirectoryTreeSync(fullPath)` of `src/memory-fs.ts` (the source's
default argument is the empty string). -/
def loadDirectoryTreeSync (ign : String → Bool) (root : FsNode) (fullPath : String) :
    FsNode × List FsEvent × Except String FsNode :=
  if ign fullPath then
    (root, [], .error ("Unable to read ignored path: '" ++ fullPath ++ "'"))
  else
    let pathArr := getPathNodes fullPath
    let dirFound := if pathArr.length ≠ 0 then getPathTarget root pathArr else some root
    match dirFound with
    | some d => (root, [], .ok (parseTree d))
    | none => (root, [], .error ("Unable to read folder in path: '" ++ fullPath ++ "'"))

/-- Result records of `loadDirectoryChildrenSync`: `File` or
`ShallowDirectory` instances (files are rebuilt without content). -/
inductive ShallowEntry where
  | fileEntry (name fullPath : String) (content : Option String)
  | shallowDir (name fullPath : String)
  deriving Repr, DecidableEq

/-- `loadDirectoryChildrenSync(fullPath)` of `src/memory-fs.ts`. -/
def loadDirectoryChildrenSync (ign : String → Bool) (root : FsNode) (fullPath : String) :
    FsNode × List FsEvent × Except String (List ShallowEntry) :=
  if ign fullPath then
    (root, [], .error ("Unable to read ignored path: '" ++ fullPath ++ "'"))
  else
    let pathArr := getPathNodes fullPath
    let dirFound := if pathArr.length ≠ 0 then getPathTarget root pathArr else some root
    match dirFound with
    | some (.dir _ _ cs) =>
      (root, [],
       .ok (cs.map (fun c =>
         match c with
         | .dir dn df _ => ShallowEntry.shallowDir dn df
         | .file fn ff _ => ShallowEntry.fileEntry fn ff none)))
    | _ => (root, [], .error ("Unable to read folder in path: '" ++ fullPath ++ "'"))

/-! ## Path string lemmas -/

lemma string_eq_empty_iff (s : String) : s = "" ↔ s.data = [] := by
  rw [show ("" : String) = String.mk [] from rfl, String.ext_iff]

lemma splitSep_no_slash {cs acc : List Char} (hacc : ∀ c ∈ acc, c ≠ '/') :
    ∀ s ∈ splitSep cs acc, ∀ c ∈ s, c ≠ '/' := by
  induction cs generalizing acc with
  | nil =>
    intro s hs c hc
    simp only [splitSep, List.mem_singleton] at hs
    subst hs
    exact hacc c (List.mem_reverse.mp hc)
  | cons x xs ih =>
    intro s hs c hc
    by_cases hx : x = '/'
    · rw [splitSep, if_pos hx] at hs
      rcases List.mem_cons.mp hs with h | h
      · subst h; exact hacc c (List.mem_reverse.mp hc)
      · exact ih (by simp) s h c hc
    · rw [splitSep, if_neg hx] at hs
      refine ih ?_ s hs c hc
      intro d hd
      rcases List.mem_cons.mp hd with h | h
      · subst h; exact hx
      · exact hacc d h

lemma getPathNodes_seg {p : String} :
    ∀ x ∈ getPathNodes p, x.data ≠ [] ∧ ∀ c ∈ x.data, c ≠ '/' := by
  intro x hx
  simp only [getPathNodes, List.mem_map, List.mem_filter] at hx
  obtain ⟨s, ⟨hs, hne⟩, rfl⟩ := hx
  refine ⟨by simpa using hne, ?_⟩
  exact splitSep_no_slash (by simp) s hs

lemma splitSep_append {xs rest acc : List Char} (h : ∀ c ∈ xs, c ≠ '/') :
    splitSep (xs ++ rest) acc = splitSep rest (xs.reverse ++ acc) := by
  induction xs generalizing acc with
  | nil => simp
  | cons x xs ih =>
    have hx : x ≠ '/' := h x (by simp)
    rw [List.cons_append, splitSep, if_neg hx, ih (fun c hc => h c (by simp [hc]))]
    simp

lemma joinPath_cons_cons (x y : String) (t : List String) :
    joinPath (x :: y :: t) = x ++ pathSeparator ++ joinPath (y :: t) := rfl

lemma getPathNodes_joinPath {l : List String}
    (h : ∀ x ∈ l, x.data ≠ [] ∧ ∀ c ∈ x.data, c ≠ '/') :
    getPathNodes (joinPath l) = l := by
  induction l with
  | nil => rfl
  | cons x t ih =>
    cases t with
    | nil =>
      obtain ⟨hne, hsl⟩ := h x (by simp)
      show getPathNodes (joinPath [x]) = [x]
      unfold getPathNodes
      have : (joinPath [x]).data = x.data ++ [] := by simp [joinPath]
      rw [this, splitSep_append hsl]
      simp only [splitSep, List.reverse_append, List.reverse_reverse]
      simp [hne]
    | cons y t2 =>
      obtain ⟨hne, hsl⟩ := h x (by simp)
      have hdata : (joinPath (x :: y :: t2)).data
          = x.data ++ '/' :: (joinPath (y :: t2)).data := by
        rw [joinPath_cons_cons]
        simp [String.data_append, pathSeparator]
      unfold getPathNodes
      rw [hdata, splitSep_append hsl]
      have : splitSep ('/' :: (joinPath (y :: t2)).data) (x.data.reverse ++ []) =
          (x.data.reverse ++ []).reverse :: splitSep (joinPath (y :: t2)).data [] := by
        rw [splitSep, if_pos rfl]
      rw [this]
      simp only [List.append_nil, List.reverse_reverse]
      rw [List.filter_cons]
      simp only [hne, decide_not]
      have ihx := ih (fun z hz => h z (by simp [hz]))
      unfold getPathNodes at ihx
      simp only [ne_eq, decide_not] at ihx ⊢
      simp [hne, ihx]

lemma joinPath_ne_empty {x : String} {t : List String} (hx : x.data ≠ []) :
    joinPath (x :: t) ≠ "" := by
  cases t with
  | nil => simpa [joinPath, string_eq_empty_iff]
  | cons y t2 =>
    rw [joinPath_cons_cons]
    intro hcontra
    rw [string_eq_empty_iff] at hcontra
    simp [String.data_append, hx] at hcontra

lemma joinPath_append_single {l : List String} {y : String}
    (h : ∀ x ∈ l, x.data ≠ []) :
    joinPath (l ++ [y]) = joinUnder (joinPath l) y := by
  induction l with
  | nil => simp [joinPath, joinUnder]
  | cons x t ih =>
    have hx : x.data ≠ [] := h x (by simp)
    cases t with
    | nil =>
      have : x ≠ "" := by simpa [string_eq_empty_iff] using hx
      simp [joinPath, joinUnder, this]
    | cons z t2 =>
      have hne : joinPath (x :: z :: t2) ≠ "" := joinPath_ne_empty hx
      have hz : (z :: t2 ++ [y]) = z :: (t2 ++ [y]) := by simp
      rw [show (x :: z :: t2) ++ [y] = x :: ((z :: t2) ++ [y]) from rfl]
      rw [show (z :: t2) ++ [y] = z :: (t2 ++ [y]) from rfl]
      rw [joinPath_cons_cons]
      rw [show z :: (t2 ++ [y]) = (z :: t2) ++ [y] from rfl]
      rw [ih (fun w hw => h w (by simp [hw]))]
      have hz2 : joinPath (z :: t2) ≠ "" := joinPath_ne_empty (h z (by simp))
      rw [joinUnder, if_neg hz2, joinUnder, if_neg hne, joinPath_cons_cons]
      simp [String.append_assoc]

/-! ## Children list lemmas -/

lemma findChild_some {cs : List FsNode} {name : String} {x : FsNode}
    (h : findChild cs name = some x) : x ∈ cs ∧ x.name = name := by
  unfold findChild at h
  refine ⟨List.mem_of_find?_eq_some h, ?_⟩
  simpa using List.find?_some h

lemma findChild_cons_pos {c : FsNode} {cs : List FsNode} {name : String}
    (h : c.name = name) : findChild (c :: cs) name = some c := by
  simp [findChild, List.find?_cons_of_pos, h]

lemma findChild_cons_neg {c : FsNode} {cs : List FsNode} {name : String}
    (h : ¬ c.name = name) : findChild (c :: cs) name = findChild cs name := by
  simp [findChild, List.find?_cons_of_neg, h]

lemma replaceChild_findChild_eq {cs : List FsNode} {name : String} {c : FsNode}
    (h : findChild cs name = some c) : replaceChild cs name c = cs := by
  induction cs with
  | nil => simp [findChild] at h
  | cons c0 cs ih =>
    by_cases h0 : c0.name = name
    · rw [findChild_cons_pos h0] at h
      cases h
      simp [replaceChild, h0]
    · rw [findChild_cons_neg h0] at h
      simp [replaceChild, h0, ih h]

lemma findChild_replaceChild {cs : List FsNode} {name : String} {c sub : FsNode}
    (h : findChild cs name = some c) (hsub : sub.name = name) :
    findChild (replaceChild cs name sub) name = some sub := by
  induction cs with
  | nil => simp [findChild] at h
  | cons c0 cs ih =>
    by_cases h0 : c0.name = name
    · simp [replaceChild, h0, findChild_cons_pos hsub]
    · rw [findChild_cons_neg h0] at h
      simp [replaceChild, h0, findChild_cons_neg h0, ih h]

lemma mem_replaceChild {cs : List FsNode} {name : String} {sub x : FsNode}
    (h : x ∈ replaceChild cs name sub) : x ∈ cs ∨ x = sub := by
  induction cs with
  | nil => simp [replaceChild] at h
  | cons c0 cs ih =>
    unfold replaceChild at h
    split at h
    · rcases List.mem_cons.mp h with h | h
      · right; exact h
      · left; exact List.mem_cons_of_mem _ h
    · rcases List.mem_cons.mp h with h | h
      · left; simp [h]
      · rcases ih h with h2 | h2
        · left; exact List.mem_cons_of_mem _ h2
        · right; exact h2

lemma findChild_append_none {cs1 cs2 : List FsNode} {name : String}
    (h : findChild cs1 name = none) :
    findChild (cs1 ++ cs2) name = findChild cs2 name := by
  unfold findChild at h ⊢
  rw [List.find?_append, h, Option.none_or]

/-! ## Equation lemmas for the path-walking operations -/

lemma getPathTarget_cons_dir {n f name dn df : String} {cs dcs : List FsNode}
    {rest : List String} (hf : findChild cs name = some (.dir dn df dcs)) :
    getPathTarget (.dir n f cs) (name :: rest) = getPathTarget (.dir dn df dcs) rest := by
  simp only [getPathTarget, hf]

lemma getPathTarget_cons_file {n f name fn ff : String} {fc : Option String}
    {cs : List FsNode} {rest : List String}
    (hf : findChild cs name = some (.file fn ff fc)) :
    getPathTarget (.dir n f cs) (name :: rest) = none := by
  simp only [getPathTarget, hf]

lemma getPathTarget_cons_none {n f name : String} {cs : List FsNode}
    {rest : List String} (hf : findChild cs name = none) :
    getPathTarget (.dir n f cs) (name :: rest) = none := by
  simp only [getPathTarget, hf]

lemma ensureDirs_cons_existing {n f name dn df : String} {cs dcs : List FsNode}
    {rest : List String} (hf : findChild cs name = some (.dir dn df dcs)) :
    ensureDirs (.dir n f cs) (name :: rest) =
      (.dir n f (replaceChild cs name (ensureDirs (.dir dn df dcs) rest).1),
       (ensureDirs (.dir dn df dcs) rest).2.1,
       (ensureDirs (.dir dn df dcs) rest).2.2) := by
  simp only [ensureDirs, hf]

lemma ensureDirs_cons_file {n f name fn ff : String} {fc : Option String}
    {cs : List FsNode} {rest : List String}
    (hf : findChild cs name = some (.file fn ff fc)) :
    ensureDirs (.dir n f cs) (name :: rest) =
      (.dir n f cs, [], some ("File is not a directory " ++ ff)) := by
  simp only [ensureDirs, hf]

lemma ensureDirs_cons_new {n f name : String} {u : List FsNode}
    {rest : List String} (hf : findChild u name = none) :
    ensureDirs (.dir n f u) (name :: rest) =
      (.dir n f (u ++ [(ensureDirs (.dir name (joinUnder f name) []) rest).1]),
       FsEvent.directoryCreated (joinUnder f name)
         :: (ensureDirs (.dir name (joinUnder f name) []) rest).2.1,
       (ensureDirs (.dir name (joinUnder f name) []) rest).2.2) := by
  simp only [ensureDirs, hf, joinUnder]

lemma modifyDirAt_cons {n f name dn df : String} {cs dcs : List FsNode}
    {rest : List String} {g : List FsNode → List FsNode}
    (hf : findChild cs name = some (.dir dn df dcs)) :
    modifyDirAt (.dir n f cs) (name :: rest) g =
      .dir n f (replaceChild cs name (modifyDirAt (.dir dn df dcs) rest g)) := by
  simp only [modifyDirAt, hf]

/-! ## ensureDirs lemmas -/

lemma ensureDirs_shape {n f : String} {u : List FsNode} {l : List String} :
    ∃ cs2, (ensureDirs (.dir n f u) l).1 = .dir n f cs2 := by
  cases l with
  | nil => exact ⟨u, rfl⟩
  | cons name rest =>
    cases hf : findChild u name with
    | none => rw [ensureDirs_cons_new hf]; exact ⟨_, rfl⟩
    | some child =>
      cases child with
      | file fn ff fc => rw [ensureDirs_cons_file hf]; exact ⟨u, rfl⟩
      | dir dn df dcs => rw [ensureDirs_cons_existing hf]; exact ⟨_, rfl⟩

lemma ensureDirs_noop_of_target {l : List String} {t d : FsNode}
    (h : getPathTarget t l = some d) : ensureDirs t l = (t, [], none) := by
  induction l generalizing t with
  | nil => rfl
  | cons name rest ih =>
    cases t with
    | file n f c => simp [getPathTarget] at h
    | dir n f cs =>
      cases hf : findChild cs name with
      | none => rw [getPathTarget_cons_none hf] at h; exact absurd h (by simp)
      | some child =>
        cases child with
        | file fn ff fc => rw [getPathTarget_cons_file hf] at h; exact absurd h (by simp)
        | dir dn df dcs =>
          rw [getPathTarget_cons_dir hf] at h
          rw [ensureDirs_cons_existing hf, ih h, replaceChild_findChild_eq hf]

lemma ensureDirs_fresh_ok {l : List String} {n f : String} :
    (ensureDirs (.dir n f []) l).2.2 = none := by
  induction l generalizing n f with
  | nil => rfl
  | cons name rest ih =>
    rw [ensureDirs_cons_new (u := []) rfl]
    exact ih

lemma ensureDirs_error_frame {l : List String} {t : FsNode} {e : String}
    (h : (ensureDirs t l).2.2 = some e) :
    (ensureDirs t l).1 = t ∧ (ensureDirs t l).2.1 = [] := by
  induction l generalizing t with
  | nil => simp [ensureDirs] at h
  | cons name rest ih =>
    cases t with
    | file n f c => simp [ensureDirs] at h
    | dir n f cs =>
      cases hf : findChild cs name with
      | none =>
        rw [ensureDirs_cons_new hf] at h
        rw [ensureDirs_fresh_ok] at h
        exact absurd h (by simp)
      | some child =>
        cases child with
        | file fn ff fc => refine ⟨?_, ?_⟩ <;> rw [ensureDirs_cons_file hf]
        | dir dn df dcs =>
          rw [ensureDirs_cons_existing hf] at h ⊢
          obtain ⟨h1, h2⟩ := ih h
          refine ⟨?_, h2⟩
          simp only [h1, replaceChild_findChild_eq hf]

lemma ensureDirs_fresh_target {l : List String} {n f : String} :
    ∃ dn df, getPathTarget (ensureDirs (.dir n f []) l).1 l = some (.dir dn df []) := by
  induction l generalizing n f with
  | nil => exact ⟨n, f, rfl⟩
  | cons name rest ih =>
    rw [ensureDirs_cons_new (u := []) rfl]
    obtain ⟨dn, df, hd⟩ := ih (n := name) (f := joinUnder f name)
    obtain ⟨cs2, hshape⟩ :=
      ensureDirs_shape (n := name) (f := joinUnder f name) (u := []) (l := rest)
    refine ⟨dn, df, ?_⟩
    simp only [List.nil_append]
    rw [hshape] at hd ⊢
    rw [getPathTarget_cons_dir (findChild_cons_pos (by rfl))]
    exact hd

lemma ensureDirs_success_events_empty {l : List String} {t : FsNode}
    (hok : (ensureDirs t l).2.2 = none) (hev : (ensureDirs t l).2.1 = []) :
    (ensureDirs t l).1 = t := by
  induction l generalizing t with
  | nil => rfl
  | cons name rest ih =>
    cases t with
    | file n f c => rfl
    | dir n f cs =>
      cases hf : findChild cs name with
      | none =>
        rw [ensureDirs_cons_new hf] at hev
        exact absurd hev (by simp)
      | some child =>
        cases child with
        | file fn ff fc => rw [ensureDirs_cons_file hf] at hok; exact absurd hok (by simp)
        | dir dn df dcs =>
          rw [ensureDirs_cons_existing hf] at hok hev ⊢
          simp only at hok hev
          simp only [ih hok hev, replaceChild_findChild_eq hf]

lemma ensureDirs_success_target {l : List String} {n f : String} {u : List FsNode}
    (hok : (ensureDirs (.dir n f u) l).2.2 = none) :
    ∃ dn df dcs,
      getPathTarget (ensureDirs (.dir n f u) l).1 l = some (.dir dn df dcs) := by
  induction l generalizing n f u with
  | nil => exact ⟨n, f, u, rfl⟩
  | cons name rest ih =>
    cases hf : findChild u name with
    | none =>
      rw [ensureDirs_cons_new hf]
      obtain ⟨dn, df, hd⟩ := ensureDirs_fresh_target (l := rest)
        (n := name) (f := joinUnder f name)
      obtain ⟨cs2, hshape⟩ :=
        ensureDirs_shape (n := name) (f := joinUnder f name) (u := []) (l := rest)
      refine ⟨dn, df, [], ?_⟩
      rw [hshape] at hd ⊢
      rw [getPathTarget_cons_dir (findChild_append_none hf ▸ findChild_cons_pos (by rfl))]
      exact hd
    | some child =>
      cases child with
      | file fn ff fc =>
        rw [ensureDirs_cons_file hf] at hok
        exact absurd hok (by simp)
      | dir dn df dcs =>
        rw [ensureDirs_cons_existing hf] at hok ⊢
        simp only at hok
        obtain ⟨a, b, c, hd⟩ := ih (n := dn) (f := df) (u := dcs) hok
        obtain ⟨cs2, hshape⟩ := ensureDirs_shape (n := dn) (f := df) (u := dcs) (l := rest)
        refine ⟨a, b, c, ?_⟩
        have hfr : findChild (replaceChild u name (ensureDirs (FsNode.dir dn df dcs) rest).1)
            name = some (FsNode.dir dn df cs2) := by
          rw [hshape]
          exact findChild_replaceChild hf (by simpa [FsNode.name] using (findChild_some hf).2)
        rw [getPathTarget_cons_dir hfr]
        rw [hshape] at hd
        exact hd

/-! ## modifyDirAt lemmas -/

lemma modifyDirAt_shape {n f : String} {u : List FsNode} {l : List String}
    {g : List FsNode → List FsNode} :
    ∃ cs2, modifyDirAt (.dir n f u) l g = .dir n f cs2 := by
  cases l with
  | nil => exact ⟨g u, rfl⟩
  | cons name rest =>
    cases hf : findChild u name with
    | none => exact ⟨u, by simp [modifyDirAt, hf]⟩
    | some child =>
      cases child with
      | file fn ff fc => exact ⟨u, by simp [modifyDirAt, hf]⟩
      | dir dn df dcs => rw [modifyDirAt_cons hf]; exact ⟨_, rfl⟩

lemma getPathTarget_modifyDirAt {l : List String} {t : FsNode} {dn df : String}
    {dcs : List FsNode} {g : List FsNode → List FsNode}
    (h : getPathTarget t l = some (.dir dn df dcs)) :
    getPathTarget (modifyDirAt t l g) l = some (.dir dn df (g dcs)) := by
  induction l generalizing t with
  | nil =>
    simp only [getPathTarget, Option.some.injEq] at h
    subst h
    rfl
  | cons name rest ih =>
    cases t with
    | file n f c => simp [getPathTarget] at h
    | dir n f cs =>
      cases hf : findChild cs name with
      | none => rw [getPathTarget_cons_none hf] at h; exact absurd h (by simp)
      | some child =>
        cases child with
        | file fn ff fc => rw [getPathTarget_cons_file hf] at h; exact absurd h (by simp)
        | dir a b c =>
          rw [getPathTarget_cons_dir hf] at h
          rw [modifyDirAt_cons hf]
          obtain ⟨c2, hshape⟩ :=
            modifyDirAt_shape (n := a) (f := b) (u := c) (l := rest) (g := g)
          have hfr : findChild (replaceChild cs name (modifyDirAt (.dir a b c) rest g))
              name = some (.dir a b c2) := by
            rw [hshape] at *
            exact findChild_replaceChild hf (by simpa [FsNode.name] using (findChild_some hf).2)
          rw [getPathTarget_cons_dir hfr, ← hshape]
          exact ih h

/-! ## Observable lookups -/

/-- The node the store holds at path `p` (the root itself when `p` parses to
no segments), through the same parent walk the source operations perform. -/
def nodeAt (root : FsNode) (p : String) : Option FsNode :=
  match (getPathNodes p).getLast? with
  | none => some root
  | some name =>
    match getPathTarget root (getPathNodes p).dropLast with
    | some (.dir _ _ cs) => findChild cs name
    | _ => none

lemma ensureDirs_created_target_empty {l : List String} {n f : String}
    {u : List FsNode}
    (hok : (ensureDirs (.dir n f u) l).2.2 = none)
    (hev : (ensureDirs (.dir n f u) l).2.1 ≠ []) :
    ∃ dn df, getPathTarget (ensureDirs (.dir n f u) l).1 l = some (.dir dn df []) := by
  induction l generalizing n f u with
  | nil => simp [ensureDirs] at hev
  | cons name rest ih =>
    cases hf : findChild u name with
    | none =>
      rw [ensureDirs_cons_new hf]
      obtain ⟨dn, df, hd⟩ := ensureDirs_fresh_target (l := rest)
        (n := name) (f := joinUnder f name)
      obtain ⟨cs2, hshape⟩ :=
        ensureDirs_shape (n := name) (f := joinUnder f name) (u := []) (l := rest)
      refine ⟨dn, df, ?_⟩
      rw [hshape] at hd ⊢
      rw [getPathTarget_cons_dir (findChild_append_none hf ▸ findChild_cons_pos (by rfl))]
      exact hd
    | some child =>
      cases child with
      | file fn ff fc =>
        rw [ensureDirs_cons_file hf] at hok
        exact absurd hok (by simp)
      | dir a b c =>
        rw [ensureDirs_cons_existing hf] at hok hev ⊢
        simp only at hok hev
        obtain ⟨dn, df, hd⟩ := ih (n := a) (f := b) (u := c) hok hev
        obtain ⟨cs2, hshape⟩ := ensureDirs_shape (n := a) (f := b) (u := c) (l := rest)
        refine ⟨dn, df, ?_⟩
        have hfr : findChild (replaceChild u name (ensureDirs (FsNode.dir a b c) rest).1)
            name = some (FsNode.dir a b cs2) := by
          rw [hshape]
          exact findChild_replaceChild hf (by simpa [FsNode.name] using (findChild_some hf).2)
        rw [getPathTarget_cons_dir hfr, ← hshape]
        exact hd

lemma ensureDirs_events_dirCreated {l : List String} {t : FsNode} :
    ∀ e ∈ (ensureDirs t l).2.1, ∃ q, e = .directoryCreated q := by
  induction l generalizing t with
  | nil => simp [ensureDirs]
  | cons name rest ih =>
    cases t with
    | file n f c => simp [ensureDirs]
    | dir n f cs =>
      cases hf : findChild cs name with
      | none =>
        rw [ensureDirs_cons_new hf]
        intro e he
        rcases List.mem_cons.mp he with h | h
        · exact ⟨joinUnder f name, h⟩
        · exact ih e h
      | some child =>
        cases child with
        | file fn ff fc => rw [ensureDirs_cons_file hf]; simp
        | dir a b c =>
          rw [ensureDirs_cons_existing hf]
          exact ih

/-! ## Round-trip of the parent path through join and re-parse -/

lemma getPathNodes_dropLast_seg {p : String} :
    ∀ x ∈ (getPathNodes p).dropLast, x.data ≠ [] ∧ ∀ ch ∈ x.data, ch ≠ '/' :=
  fun x hx => getPathNodes_seg x (List.dropLast_subset _ hx)

lemma getPathNodes_joinPath_dropLast {p : String} :
    getPathNodes (joinPath ((getPathNodes p).dropLast)) = (getPathNodes p).dropLast :=
  getPathNodes_joinPath getPathNodes_dropLast_seg

lemma getPathNodes_ne_nil_of_getLast {p : String} {name : String}
    (h : (getPathNodes p).getLast? = some name) : getPathNodes p ≠ [] := by
  rintro hnil
  rw [hnil] at h
  simp at h

lemma dropLast_append_getLast_of_getLast {α : Type} {l : List α} {x : α}
    (h : l.getLast? = some x) : l.dropLast ++ [x] = l := by
  have hne : l ≠ [] := by rintro rfl; simp at h
  have h2 : l.getLast hne = x := by
    rw [List.getLast?_eq_getLast l hne] at h
    exact Option.some.inj h
  rw [← h2]
  exact List.dropLast_append_getLast hne

/-! ## Concrete stores and predicates used in scenarios -/

/-- The default ignore predicate of the source (`() => false`). -/
def noIgnore : String → Bool := fun _ => false

/-- An ignore predicate matching exactly the path `a`. -/
def ignoreOnlyA : String → Bool := fun p => p = "a"

/-- Store after `saveFile('a/b.txt', 'hi')` on a fresh store. -/
def c1Store : FsNode := (saveFileSync noIgnore emptyRoot "a/b.txt" "hi").1

/-- Store holding directory `a` with subdirectory `a/b` and file `a/c.txt`. -/
def c2Store : FsNode :=
  (saveFileSync noIgnore (ensureDirectorySync noIgnore emptyRoot "a/b").1 "a/c.txt" "z").1

/-- Store holding a single top-level file `f`. -/
def fileBlockStore : FsNode := (saveFileSync noIgnore emptyRoot "f" "x").1

/-! ## Claim theorems -/

/-- C10: the read operations `loadTextFile`, `loadDirectoryTree` and
`loadDirectoryChildren` return the store tree unchanged and emit no events,
for every ignore predicate, store state and path argument, whether they
succeed or fail. -/
theorem readOperations_no_mutation_no_events
    (ign : String → Bool) (root : FsNode) (p : String) :
    (loadTextFileSync ign root p).1 = root ∧
    (loadTextFileSync ign root p).2.1 = [] ∧
    (loadDirectoryTreeSync ign root p).1 = root ∧
    (loadDirectoryTreeSync ign root p).2.1 = [] ∧
    (loadDirectoryChildrenSync ign root p).1 = root ∧
    (loadDirectoryChildrenSync ign root p).2.1 = [] := by
  refine ⟨?_, ?_, ?_, ?_, ?_, ?_⟩ <;>
    · simp only [loadTextFileSync, loadDirectoryTreeSync, loadDirectoryChildrenSync]
      repeat' split
      all_goals rfl

/-- C3 (amended): when `p` matches the ignore predicate, `saveFile(p, c)`
fails with the ignored-path error for every content `c` and performs no
mutation, and `loadDirectoryTree(p)` itself fails with the ignored-path
error; the full tree listing may however still contain nodes at ignored
paths that were created as implicit ancestors of non-ignored operation
paths (see the counterexample). -/
theorem ignored_saveFile_fails (ign : String → Bool) (root : FsNode) (p c : String)
    (h : ign p = true) :
    saveFileSync ign root p c
      = (root, [], some ("Unable to save ignored path: \'" ++ p ++ "\'")) ∧
    (loadDirectoryTreeSync ign root p).2.2
      = .error ("Unable to read ignored path: \'" ++ p ++ "\'") := by
  constructor
  · unfold saveFileSync
    rw [if_pos h]
  · unfold loadDirectoryTreeSync
    rw [if_pos h]

theorem ignored_saveFile_fails_witness :
    ignoreOnlyA "a" = true ∧
    saveFileSync ignoreOnlyA emptyRoot "a" "hi"
      = (emptyRoot, [], some ("Unable to save ignored path: \'" ++ "a" ++ "\'")) ∧
    (loadDirectoryTreeSync ignoreOnlyA emptyRoot "a").2.2
      = .error ("Unable to read ignored path: \'" ++ "a" ++ "\'") :=
  ⟨rfl, (ignored_saveFile_fails ignoreOnlyA emptyRoot "a" "hi" rfl).1,
    (ignored_saveFile_fails ignoreOnlyA emptyRoot "a" "hi" rfl).2⟩

/-- C3 counterexample: with the predicate ignoring exactly `a`,
`ensureDirectory('a/b')` succeeds (only the full argument path is checked)
and creates the ignored directory `a`, which `loadDirectoryTree()` then
lists — the tree is not ignore-filtered at construction time. -/
theorem ignored_node_listed_counterexample :
    ignoreOnlyA "a" = true ∧
    (ensureDirectorySync ignoreOnlyA emptyRoot "a/b").2.2 = none ∧
    (loadDirectoryTreeSync ignoreOnlyA
        (ensureDirectorySync ignoreOnlyA emptyRoot "a/b").1 "").2.2
      = .ok (.dir "" "" [.dir "a" "a" [.dir "b" "a/b" []]]) :=
  ⟨rfl, rfl, rfl⟩

/-- C4 (code bug): `deleteFile` on the empty (root) path parses to no
segments, finds no parent directory, and silently no-ops — it does not
fail, contradicting the claimed `IllegalPath` error (which the same file's
`deleteDirectorySync` does raise for the root, as does the repository's
local-filesystem `deleteFile`). -/
theorem deleteFile_rootPath_silently_noops :
    deleteFileSync noIgnore emptyRoot "" = (emptyRoot, [], none) ∧
    deleteFileSync noIgnore emptyRoot "/" = (emptyRoot, [], none) ∧
    deleteFileSync noIgnore c2Store "" = (c2Store, [], none) :=
  ⟨rfl, rfl, rfl⟩

/-- C2 (code bug): recursive `deleteDirectory('a')` on a store where `a`
holds a subdirectory `a/b` and a file `a/c.txt` emits, besides the claimed
`directoryDeleted` events for `a` and `a/b` and `fileDeleted` for
`a/c.txt`, an extra `fileDeleted` event for the directory `a/b` — the
`forEach` in `recursiveEmitDeletion` emits `fileDeleted` for every child,
directories included. -/
theorem deleteDirectory_extra_fileDeleted_for_subdirectory :
    nodeAt c2Store "a/b" = some (.dir "b" "a/b" []) ∧
    deleteDirectorySync noIgnore c2Store "a" true
      = (emptyRoot,
         [.directoryDeleted "a", .directoryDeleted "a/b",
          .fileDeleted "a/b", .fileDeleted "a/c.txt"], none) :=
  ⟨rfl, rfl⟩

/-- C1 counterexample: after `saveFile('a/b.txt', 'hi')` the store itself
holds the content (`loadTextFile` returns it), but the tree returned by
`loadDirectoryTree()` rebuilds every file without its content
(`new File(child.name, child.fullPath)` in `parseTree`), so the file node
for `b.txt` carries no content rather than `hi`. -/
theorem loadDirectoryTree_content_missing_counterexample :
    (loadTextFileSync noIgnore c1Store "a/b.txt").2.2 = .ok "hi" ∧
    (loadDirectoryTreeSync noIgnore c1Store "").2.2
      = .ok (.dir "" "" [.dir "a" "a" [.file "b.txt" "a/b.txt" none]]) ∧
    (none : Option String) ≠ some "hi" :=
  ⟨rfl, rfl, by decide⟩

/-- C1 (amended): after `saveFile('a/b.txt', 'hi')` on a fresh store,
`loadDirectoryTree()` returns a root directory whose children contain the
directory `a` whose children contain the file `b.txt` (with full path
`a/b.txt`); the returned copy does not include file contents. -/
theorem saveFile_loadDirectoryTree_scenario :
    (saveFileSync noIgnore emptyRoot "a/b.txt" "hi").2.2 = none ∧
    (loadDirectoryTreeSync noIgnore c1Store "").2.2
      = .ok (.dir "" "" [.dir "a" "a" [.file "b.txt" "a/b.txt" none]]) :=
  ⟨rfl, rfl⟩

lemma ensureDirs_file_root {l : List String} {n f : String} {c : Option String} :
    ensureDirs (.file n f c) l = (.file n f c, [], none) := by
  cases l with
  | nil => rfl
  | cons name rest => rfl

/-- C8: `ensureDirectory` is idempotent: when a call succeeds (the path is
not ignored and no segment is blocked by a file), an immediately repeated
call with the same path succeeds, leaves the tree exactly as the first call
left it, and emits no `directoryCreated` event at all.  The witness
instantiates the concrete scenario: a first ensureDirectory of `x` on a
fresh store emits exactly one `directoryCreated` with path `x` and a second
emits none. -/
theorem ensureDirectory_idempotent (ign : String → Bool) (root s1 : FsNode)
    (p : String) (evs : List FsEvent)
    (h : ensureDirectorySync ign root p = (s1, evs, none)) :
    ensureDirectorySync ign s1 p = (s1, [], none) := by
  unfold ensureDirectorySync at h ⊢
  by_cases hi : ign p = true
  · rw [if_pos hi] at h
    simp at h
  · rw [if_neg hi] at h ⊢
    have hok : (ensureDirs root (getPathNodes p)).2.2 = none := by rw [h]
    have hs1 : (ensureDirs root (getPathNodes p)).1 = s1 := by rw [h]
    cases root with
    | file n f c =>
      have hs : s1 = .file n f c := by
        rw [ensureDirs_file_root] at hs1
        exact hs1.symm
      rw [hs, ensureDirs_file_root]
    | dir n f cs =>
      obtain ⟨dn, df, dcs, hd⟩ := ensureDirs_success_target (l := getPathNodes p)
        (n := n) (f := f) (u := cs) hok
      rw [hs1] at hd
      exact ensureDirs_noop_of_target hd

theorem ensureDirectory_idempotent_witness :
    ensureDirectorySync noIgnore emptyRoot "x"
      = (.dir "" "" [.dir "x" "x" []], [.directoryCreated "x"], none) ∧
    ensureDirectorySync noIgnore (.dir "" "" [.dir "x" "x" []]) "x"
      = (.dir "" "" [.dir "x" "x" []], [], none) :=
  ⟨rfl, ensureDirectory_idempotent noIgnore emptyRoot (.dir "" "" [.dir "x" "x" []]) "x"
      [.directoryCreated "x"] rfl⟩

/-! ## Branch equations for saveFileSync -/

section SaveEqs

variable {ign : String → Bool} {root : FsNode} {p c name : String}
variable {R : FsNode × List FsEvent × Option String}

lemma saveFileSync_ignored (hi : ign p = true) :
    saveFileSync ign root p c
      = (root, [], some ("Unable to save ignored path: \'" ++ p ++ "\'")) := by
  unfold saveFileSync
  rw [if_pos hi]

lemma saveFileSync_rootName (hi : ign p ≠ true)
    (hm : (getPathNodes p).getLast? = none) :
    saveFileSync ign root p c = (root, [], some "root is not a legal file name") := by
  unfold saveFileSync
  rw [if_neg hi]
  simp only [hm]

lemma saveFileSync_ensureFailed (hi : ign p ≠ true)
    (hm : (getPathNodes p).getLast? = some name)
    (hR : ensureDirectorySync ign root (joinPath (getPathNodes p).dropLast) = R)
    {e2 : String} (hr : R.2.2 = some e2) :
    saveFileSync ign root p c = (R.1, R.2.1, some e2) := by
  subst hR
  unfold saveFileSync
  rw [if_neg hi]
  simp only [hm, hr]

lemma saveFileSync_unexpected (hi : ign p ≠ true)
    (hm : (getPathNodes p).getLast? = some name)
    (hR : ensureDirectorySync ign root (joinPath (getPathNodes p).dropLast) = R)
    (hr : R.2.2 = none)
    (hg : getPathTarget R.1 (getPathNodes p).dropLast = none) :
    saveFileSync ign root p c
      = (R.1, R.2.1,
         some ("unexpected error: not a legal file name? \'" ++ p ++ "\'")) := by
  subst hR
  unfold saveFileSync
  rw [if_neg hi]
  simp only [hm, hr, hg]

lemma saveFileSync_dirAtName (hi : ign p ≠ true)
    (hm : (getPathNodes p).getLast? = some name)
    (hR : ensureDirectorySync ign root (joinPath (getPathNodes p).dropLast) = R)
    (hr : R.2.2 = none) {a b : String} {pch : List FsNode}
    (hg : getPathTarget R.1 (getPathNodes p).dropLast = some (.dir a b pch))
    {dn df : String} {dcs : List FsNode}
    (hfc : findChild pch name = some (.dir dn df dcs)) :
    saveFileSync ign root p c
      = (R.1, R.2.1, some ("file save error for path \'" ++ p ++ "\'")) := by
  subst hR
  unfold saveFileSync
  rw [if_neg hi]
  simp only [hm, hr, hg, hfc]

lemma saveFileSync_sameContent (hi : ign p ≠ true)
    (hm : (getPathNodes p).getLast? = some name)
    (hR : ensureDirectorySync ign root (joinPath (getPathNodes p).dropLast) = R)
    (hr : R.2.2 = none) {a b : String} {pch : List FsNode}
    (hg : getPathTarget R.1 (getPathNodes p).dropLast = some (.dir a b pch))
    {fn ff : String} {fc : Option String}
    (hfc : findChild pch name = some (.file fn ff fc)) (heq : fc = some c) :
    saveFileSync ign root p c = (R.1, R.2.1, none) := by
  subst hR
  unfold saveFileSync
  rw [if_neg hi]
  simp only [hm, hr, hg, hfc, heq, if_pos]

lemma saveFileSync_update (hi : ign p ≠ true)
    (hm : (getPathNodes p).getLast? = some name)
    (hR : ensureDirectorySync ign root (joinPath (getPathNodes p).dropLast) = R)
    (hr : R.2.2 = none) {a b : String} {pch : List FsNode}
    (hg : getPathTarget R.1 (getPathNodes p).dropLast = some (.dir a b pch))
    {fn ff : String} {fc : Option String}
    (hfc : findChild pch name = some (.file fn ff fc)) (hne : fc ≠ some c) :
    saveFileSync ign root p c
      = (modifyDirAt R.1 ((getPathNodes p).dropLast)
           (fun cs => replaceChild cs name (.file fn ff (some c))),
         R.2.1 ++ [FsEvent.fileChanged p c], none) := by
  subst hR
  unfold saveFileSync
  rw [if_neg hi]
  simp only [hm, hr, hg, hfc, if_neg hne]

lemma saveFileSync_create (hi : ign p ≠ true)
    (hm : (getPathNodes p).getLast? = some name)
    (hR : ensureDirectorySync ign root (joinPath (getPathNodes p).dropLast) = R)
    (hr : R.2.2 = none) {a b : String} {pch : List FsNode}
    (hg : getPathTarget R.1 (getPathNodes p).dropLast = some (.dir a b pch))
    (hfc : findChild pch name = none) :
    saveFileSync ign root p c
      = (modifyDirAt R.1 ((getPathNodes p).dropLast)
           (fun cs => cs ++ [FsNode.file name p (some c)]),
         R.2.1 ++ [FsEvent.fileCreated p c], none) := by
  subst hR
  unfold saveFileSync
  rw [if_neg hi]
  simp only [hm, hr, hg, hfc]


lemma saveFileSync_unexpectedFile (hi : ign p ≠ true)
    (hm : (getPathNodes p).getLast? = some name)
    (hR : ensureDirectorySync ign root (joinPath (getPathNodes p).dropLast) = R)
    (hr : R.2.2 = none) {fn ff : String} {fc : Option String}
    (hg : getPathTarget R.1 (getPathNodes p).dropLast = some (.file fn ff fc)) :
    saveFileSync ign root p c
      = (R.1, R.2.1,
         some ("unexpected error: not a legal file name? \'" ++ p ++ "\'")) := by
  subst hR
  unfold saveFileSync
  rw [if_neg hi]
  simp only [hm, hr, hg]

end SaveEqs

lemma getPathTarget_isDir {l : List String} {n f : String} {cs : List FsNode}
    {d : FsNode} (h : getPathTarget (.dir n f cs) l = some d) :
    ∃ a b c2, d = FsNode.dir a b c2 := by
  induction l generalizing n f cs with
  | nil =>
    simp only [getPathTarget, Option.some.injEq] at h
    exact ⟨n, f, cs, h.symm⟩
  | cons name rest ih =>
    cases hf : findChild cs name with
    | none => rw [getPathTarget_cons_none hf] at h; exact absurd h (by simp)
    | some child =>
      cases child with
      | file fn ff fc => rw [getPathTarget_cons_file hf] at h; exact absurd h (by simp)
      | dir a b c2 =>
        rw [getPathTarget_cons_dir hf] at h
        exact ih h

/-- C9: whenever `saveFile(p, c)` fails — ignored path, root path, a file
blocking a path segment, a directory occupying the target name, or an
ignored parent path — the store tree is exactly as it was before the call
and no event is emitted. -/
theorem saveFile_failure_frame (ign : String → Bool) (rn rf : String)
    (rcs : List FsNode) (p c e : String)
    (h : (saveFileSync ign (.dir rn rf rcs) p c).2.2 = some e) :
    (saveFileSync ign (.dir rn rf rcs) p c).1 = .dir rn rf rcs ∧
    (saveFileSync ign (.dir rn rf rcs) p c).2.1 = [] := by
  by_cases hi : ign p = true
  · rw [saveFileSync_ignored hi]
    exact ⟨rfl, rfl⟩
  · cases hm : (getPathNodes p).getLast? with
    | none =>
      rw [saveFileSync_rootName hi hm]
      exact ⟨rfl, rfl⟩
    | some name =>
      by_cases hj : ign (joinPath ((getPathNodes p).dropLast)) = true
      · have hR : ensureDirectorySync ign (.dir rn rf rcs)
            (joinPath ((getPathNodes p).dropLast))
            = ((.dir rn rf rcs : FsNode), ([] : List FsEvent),
               some ("Unable to read and write ignored path: \'"
                 ++ joinPath ((getPathNodes p).dropLast) ++ "\'")) := by
          unfold ensureDirectorySync
          rw [if_pos hj]
        rw [saveFileSync_ensureFailed hi hm hR rfl]
        exact ⟨rfl, rfl⟩
      · have hR : ensureDirectorySync ign (.dir rn rf rcs)
            (joinPath ((getPathNodes p).dropLast))
            = ensureDirs (.dir rn rf rcs) ((getPathNodes p).dropLast) := by
          unfold ensureDirectorySync
          rw [if_neg hj, getPathNodes_joinPath_dropLast]
        cases hr : (ensureDirs (.dir rn rf rcs) ((getPathNodes p).dropLast)).2.2 with
        | some e2 =>
          rw [saveFileSync_ensureFailed hi hm hR hr]
          exact ensureDirs_error_frame hr
        | none =>
          cases hg : getPathTarget (ensureDirs (.dir rn rf rcs)
              ((getPathNodes p).dropLast)).1 ((getPathNodes p).dropLast) with
          | none =>
            rw [saveFileSync_unexpected hi hm hR hr hg]
            by_cases hev : (ensureDirs (.dir rn rf rcs) ((getPathNodes p).dropLast)).2.1 = []
            · exact ⟨ensureDirs_success_events_empty hr hev, hev⟩
            · obtain ⟨dn, df, hd⟩ := ensureDirs_created_target_empty hr hev
              rw [hd] at hg
              exact absurd hg (by simp)
          | some d =>
            obtain ⟨cs2, hshape⟩ := ensureDirs_shape
              (n := rn) (f := rf) (u := rcs) (l := (getPathNodes p).dropLast)
            obtain ⟨a, b, pch, rfl⟩ := getPathTarget_isDir (hshape ▸ hg)
            cases hfc : findChild pch name with
            | none =>
              rw [saveFileSync_create hi hm hR hr hg hfc] at h
              simp at h
            | some child =>
              cases child with
              | dir dn df dcs =>
                rw [saveFileSync_dirAtName hi hm hR hr hg hfc]
                by_cases hev :
                    (ensureDirs (.dir rn rf rcs) ((getPathNodes p).dropLast)).2.1 = []
                · exact ⟨ensureDirs_success_events_empty hr hev, hev⟩
                · obtain ⟨dn2, df2, hd⟩ := ensureDirs_created_target_empty hr hev
                  rw [hd] at hg
                  have hpch : pch = [] := by
                    have := Option.some.inj hg
                    exact (FsNode.dir.injEq .. ▸ this).2.2.symm
                  rw [hpch] at hfc
                  exact absurd hfc (by simp [findChild])
              | file fn ff fc =>
                by_cases heq : fc = some c
                · rw [saveFileSync_sameContent hi hm hR hr hg hfc heq] at h
                  simp at h
                · rw [saveFileSync_update hi hm hR hr hg hfc heq] at h
                  simp at h

theorem saveFile_failure_frame_witness :
    (saveFileSync noIgnore emptyRoot "" "hi").2.2 = some "root is not a legal file name" ∧
    (saveFileSync noIgnore emptyRoot "" "hi").1 = emptyRoot ∧
    (saveFileSync noIgnore emptyRoot "" "hi").2.1 = [] :=
  ⟨rfl, (saveFile_failure_frame noIgnore "" "" [] "" "hi"
      "root is not a legal file name" rfl).1,
    (saveFile_failure_frame noIgnore "" "" [] "" "hi"
      "root is not a legal file name" rfl).2⟩

lemma getLastD_eq_getLastQ {α : Type} (l : List α) (d : α) :
    l.getLastD d = (l.getLast?).getD d := by
  cases l <;> simp [List.getLastD_eq_getLast?]

lemma loadTextFileSync_found {ign : String → Bool} {root : FsNode} {p : String}
    (hi : ign p ≠ true) (hlen : (getPathNodes p).length ≠ 0)
    {a b : String} {pch : List FsNode}
    (hg : getPathTarget root ((getPathNodes p).dropLast) = some (.dir a b pch))
    {fn ff : String} {fc : Option String}
    (hfc : findChild pch ((getPathNodes p).getLastD "") = some (.file fn ff fc)) :
    (loadTextFileSync ign root p).2.2 = .ok (fc.getD "") := by
  unfold loadTextFileSync
  rw [if_neg hi]
  simp only [if_pos hlen, hg, hfc]

/-- C7 (amended): for every path `p` and content `c` on which `saveFile(p, c)`
succeeds, a subsequent `loadTextFile(p)` returns exactly `c`.  (`saveFile`
can fail even on a non-ignored, non-root path — see the counterexample — so
success is the hypothesis.) -/
theorem saveFile_loadTextFile_roundtrip (ign : String → Bool) (root : FsNode)
    (p c : String) (h : (saveFileSync ign root p c).2.2 = none) :
    (loadTextFileSync ign (saveFileSync ign root p c).1 p).2.2 = .ok c := by
  by_cases hi : ign p = true
  · rw [saveFileSync_ignored hi] at h
    simp at h
  · cases hm : (getPathNodes p).getLast? with
    | none =>
      rw [saveFileSync_rootName hi hm] at h
      simp at h
    | some name =>
      have hnil : getPathNodes p ≠ [] := getPathNodes_ne_nil_of_getLast hm
      have hlen : (getPathNodes p).length ≠ 0 := by
        simpa [List.length_eq_zero] using hnil
      have hlast : (getPathNodes p).getLastD "" = name := by
        rw [getLastD_eq_getLastQ, hm]
        rfl
      by_cases hj : ign (joinPath ((getPathNodes p).dropLast)) = true
      · have hR : ensureDirectorySync ign root (joinPath ((getPathNodes p).dropLast))
            = (root, ([] : List FsEvent),
               some ("Unable to read and write ignored path: \'"
                 ++ joinPath ((getPathNodes p).dropLast) ++ "\'")) := by
          unfold ensureDirectorySync
          rw [if_pos hj]
        rw [saveFileSync_ensureFailed hi hm hR rfl] at h
        simp at h
      · have hR : ensureDirectorySync ign root (joinPath ((getPathNodes p).dropLast))
            = ensureDirs root ((getPathNodes p).dropLast) := by
          unfold ensureDirectorySync
          rw [if_neg hj, getPathNodes_joinPath_dropLast]
        cases hr : (ensureDirs root ((getPathNodes p).dropLast)).2.2 with
        | some e2 =>
          rw [saveFileSync_ensureFailed hi hm hR hr] at h
          simp at h
        | none =>
          cases hg : getPathTarget (ensureDirs root
              ((getPathNodes p).dropLast)).1 ((getPathNodes p).dropLast) with
          | none =>
            rw [saveFileSync_unexpected hi hm hR hr hg] at h
            simp at h
          | some d =>
            cases d with
            | file fn ff fc =>
              rw [saveFileSync_unexpectedFile hi hm hR hr hg] at h
              simp at h
            | dir a b pch =>
              cases hfc : findChild pch name with
              | none =>
                rw [saveFileSync_create hi hm hR hr hg hfc]
                have hg2 := getPathTarget_modifyDirAt
                  (g := fun cs => cs ++ [FsNode.file name p (some c)]) hg
                have hfc2 : findChild (pch ++ [FsNode.file name p (some c)])
                    ((getPathNodes p).getLastD "")
                    = some (.file name p (some c)) := by
                  rw [hlast, findChild_append_none hfc]
                  exact findChild_cons_pos rfl
                rw [loadTextFileSync_found hi hlen hg2 hfc2]
                rfl
              | some child =>
                cases child with
                | dir dn df dcs =>
                  rw [saveFileSync_dirAtName hi hm hR hr hg hfc] at h
                  simp at h
                | file fn ff fc =>
                  by_cases heq : fc = some c
                  · rw [saveFileSync_sameContent hi hm hR hr hg hfc heq]
                    subst heq
                    rw [loadTextFileSync_found hi hlen hg (by rw [hlast]; exact hfc)]
                    rfl
                  · rw [saveFileSync_update hi hm hR hr hg hfc heq]
                    have hg2 := getPathTarget_modifyDirAt
                      (g := fun cs => replaceChild cs name (.file fn ff (some c))) hg
                    have hfc2 : findChild (replaceChild pch name (.file fn ff (some c)))
                        ((getPathNodes p).getLastD "")
                        = some (.file fn ff (some c)) := by
                      rw [hlast]
                      exact findChild_replaceChild hfc
                        (by simpa [FsNode.name] using (findChild_some hfc).2)
                    rw [loadTextFileSync_found hi hlen hg2 hfc2]
                    rfl

theorem saveFile_loadTextFile_roundtrip_witness :
    (saveFileSync noIgnore emptyRoot "a/b.txt" "hi").2.2 = none ∧
    (loadTextFileSync noIgnore
        (saveFileSync noIgnore emptyRoot "a/b.txt" "hi").1 "a/b.txt").2.2 = .ok "hi" :=
  ⟨rfl, saveFile_loadTextFile_roundtrip noIgnore emptyRoot "a/b.txt" "hi" rfl⟩

/-- C7 counterexample: `f/y` is neither ignored nor the root, yet
`saveFile` on it fails when a file occupies the segment `f`, so "saveFile
succeeds for every non-ignored, non-root path" is false. -/
theorem saveFile_legal_path_may_fail_counterexample :
    noIgnore "f/y" = false ∧
    (getPathNodes "f/y").getLast? = some "y" ∧
    (saveFileSync noIgnore fileBlockStore "f/y" "c").2.2
      = some ("File is not a directory " ++ "f") :=
  ⟨rfl, rfl, rfl⟩

lemma nodeAt_eq_findChild {root : FsNode} {p name : String}
    (hm : (getPathNodes p).getLast? = some name)
    {a b : String} {pch : List FsNode}
    (hg : getPathTarget root ((getPathNodes p).dropLast) = some (.dir a b pch)) :
    nodeAt root p = findChild pch name := by
  simp only [nodeAt, hm, hg]

lemma nodeAt_none_of_target_none {root : FsNode} {p name : String}
    (hm : (getPathNodes p).getLast? = some name)
    (hg : getPathTarget root ((getPathNodes p).dropLast) = none) :
    nodeAt root p = none := by
  simp only [nodeAt, hm, hg]

/-- C5 (amended): for every call `saveFile(p, c)` that does not fail (the
original claim quantifies over every non-ignored, non-root `p`, but such a
call can still fail when a file blocks a path segment, a directory occupies
`p`, or the parent path is ignored — see the counterexample): if a file
existed at `p` with content different from `c`, the call updates exactly
that file to content `c` and emits exactly one event, `fileChanged`; if the
existing content equals `c`, the call returns the store unchanged with no
events; if no node existed at `p`, the call creates a file with content `c`
at `p` and the emitted events are `directoryCreated` events for implicitly
created ancestors followed by exactly one `fileCreated`. -/
theorem saveFile_three_cases (ign : String → Bool) (rn rf : String)
    (rcs : List FsNode) (p c : String)
    (h : (saveFileSync ign (.dir rn rf rcs) p c).2.2 = none) :
    (∀ fn ff fc, nodeAt (.dir rn rf rcs) p = some (.file fn ff fc) →
        fc ≠ some c →
        (saveFileSync ign (.dir rn rf rcs) p c).2.1 = [FsEvent.fileChanged p c] ∧
        nodeAt (saveFileSync ign (.dir rn rf rcs) p c).1 p
          = some (.file fn ff (some c))) ∧
    (∀ fn ff, nodeAt (.dir rn rf rcs) p = some (.file fn ff (some c)) →
        saveFileSync ign (.dir rn rf rcs) p c = (.dir rn rf rcs, [], none)) ∧
    (nodeAt (.dir rn rf rcs) p = none →
        nodeAt (saveFileSync ign (.dir rn rf rcs) p c).1 p
          = some (.file ((getPathNodes p).getLastD "") p (some c)) ∧
        ∃ pre, (saveFileSync ign (.dir rn rf rcs) p c).2.1
            = pre ++ [FsEvent.fileCreated p c] ∧
          ∀ e2 ∈ pre, ∃ q, e2 = FsEvent.directoryCreated q) := by
  by_cases hi : ign p = true
  · rw [saveFileSync_ignored hi] at h
    simp at h
  · cases hm : (getPathNodes p).getLast? with
    | none =>
      rw [saveFileSync_rootName hi hm] at h
      simp at h
    | some name =>
      have hlast : (getPathNodes p).getLastD "" = name := by
        rw [getLastD_eq_getLastQ, hm]
        rfl
      by_cases hj : ign (joinPath ((getPathNodes p).dropLast)) = true
      · have hR : ensureDirectorySync ign (.dir rn rf rcs)
            (joinPath ((getPathNodes p).dropLast))
            = ((.dir rn rf rcs : FsNode), ([] : List FsEvent),
               some ("Unable to read and write ignored path: \'"
                 ++ joinPath ((getPathNodes p).dropLast) ++ "\'")) := by
          unfold ensureDirectorySync
          rw [if_pos hj]
        rw [saveFileSync_ensureFailed hi hm hR rfl] at h
        simp at h
      · have hR : ensureDirectorySync ign (.dir rn rf rcs)
            (joinPath ((getPathNodes p).dropLast))
            = ensureDirs (.dir rn rf rcs) ((getPathNodes p).dropLast) := by
          unfold ensureDirectorySync
          rw [if_neg hj, getPathNodes_joinPath_dropLast]
        cases hr : (ensureDirs (.dir rn rf rcs) ((getPathNodes p).dropLast)).2.2 with
        | some e2 =>
          rw [saveFileSync_ensureFailed hi hm hR hr] at h
          simp at h
        | none =>
          cases hg : getPathTarget (ensureDirs (.dir rn rf rcs)
              ((getPathNodes p).dropLast)).1 ((getPathNodes p).dropLast) with
          | none =>
            rw [saveFileSync_unexpected hi hm hR hr hg] at h
            simp at h
          | some d =>
            obtain ⟨cs2, hshape⟩ := ensureDirs_shape
              (n := rn) (f := rf) (u := rcs) (l := (getPathNodes p).dropLast)
            obtain ⟨a, b, pch, rfl⟩ := getPathTarget_isDir (hshape ▸ hg)
            by_cases hev : (ensureDirs (.dir rn rf rcs) ((getPathNodes p).dropLast)).2.1 = []
            · -- ensureDirectory created nothing: the tree before the call
              -- already resolves the parent directory
              have hq : (ensureDirs (.dir rn rf rcs) ((getPathNodes p).dropLast)).1
                  = .dir rn rf rcs := ensureDirs_success_events_empty hr hev
              rw [hq] at hg
              have hnode := nodeAt_eq_findChild hm hg
              cases hfc : findChild pch name with
              | none =>
                refine ⟨?_, ?_, ?_⟩
                · intro fn ff fc hx hne
                  rw [hnode, hfc] at hx
                  exact absurd hx (by simp)
                · intro fn ff hx
                  rw [hnode, hfc] at hx
                  exact absurd hx (by simp)
                · intro hx
                  have hgq : getPathTarget (ensureDirs (.dir rn rf rcs)
                      ((getPathNodes p).dropLast)).1 ((getPathNodes p).dropLast)
                      = some (.dir a b pch) := by rw [hq]; exact hg
                  rw [saveFileSync_create hi hm hR hr hgq hfc]
                  constructor
                  · have hg2 := getPathTarget_modifyDirAt
                      (g := fun cs => cs ++ [FsNode.file name p (some c)]) hgq
                    rw [nodeAt_eq_findChild hm hg2, hlast]
                    have hfind : findChild (pch ++ [FsNode.file name p (some c)]) name
                        = some (.file name p (some c)) := by
                      rw [findChild_append_none hfc]
                      exact findChild_cons_pos rfl
                    exact hfind
                  · refine ⟨(ensureDirs (.dir rn rf rcs) ((getPathNodes p).dropLast)).2.1,
                      rfl, ?_⟩
                    exact ensureDirs_events_dirCreated
              | some child =>
                cases child with
                | dir dn df dcs =>
                  have hgq : getPathTarget (ensureDirs (.dir rn rf rcs)
                      ((getPathNodes p).dropLast)).1 ((getPathNodes p).dropLast)
                      = some (.dir a b pch) := by rw [hq]; exact hg
                  rw [saveFileSync_dirAtName hi hm hR hr hgq hfc] at h
                  simp at h
                | file fn ff fc =>
                  have hgq : getPathTarget (ensureDirs (.dir rn rf rcs)
                      ((getPathNodes p).dropLast)).1 ((getPathNodes p).dropLast)
                      = some (.dir a b pch) := by rw [hq]; exact hg
                  refine ⟨?_, ?_, ?_⟩
                  · intro fn2 ff2 fc2 hx hne
                    rw [hnode, hfc] at hx
                    injection hx with hx2
                    injection hx2 with hfn hff hfc3
                    rw [← hfn, ← hff]
                    have hne2 : fc ≠ some c := by rw [hfc3]; exact hne
                    rw [saveFileSync_update hi hm hR hr hgq hfc hne2]
                    constructor
                    · rw [hev]
                      rfl
                    · have hg2 := getPathTarget_modifyDirAt
                        (g := fun cs => replaceChild cs name (.file fn ff (some c))) hgq
                      rw [nodeAt_eq_findChild hm hg2]
                      exact findChild_replaceChild hfc
                        (by simpa [FsNode.name] using (findChild_some hfc).2)
                  · intro fn2 ff2 hx
                    rw [hnode, hfc] at hx
                    injection hx with hx2
                    injection hx2 with hfn hff hfc3
                    rw [saveFileSync_sameContent hi hm hR hr hgq hfc hfc3, hq, hev]
                  · intro hx
                    rw [hnode, hfc] at hx
                    exact absurd hx (by simp)
            · -- ensureDirectory created directories: the parent is fresh and
              -- empty, and nothing resolved at p before the call
              obtain ⟨dn2, df2, hd⟩ := ensureDirs_created_target_empty hr hev
              have hpch : pch = [] := by
                rw [hd] at hg
                exact ((FsNode.dir.injEq .. ▸ Option.some.inj hg)).2.2.symm
              have hg0 : getPathTarget (.dir rn rf rcs) ((getPathNodes p).dropLast)
                  = none := by
                cases hx : getPathTarget (.dir rn rf rcs) ((getPathNodes p).dropLast) with
                | none => rfl
                | some d0 =>
                  have := ensureDirs_noop_of_target hx
                  rw [this] at hev
                  exact absurd rfl hev
              have hnode := nodeAt_none_of_target_none hm hg0
              refine ⟨?_, ?_, ?_⟩
              · intro fn ff fc hx hne
                rw [hnode] at hx
                exact absurd hx (by simp)
              · intro fn ff hx
                rw [hnode] at hx
                exact absurd hx (by simp)
              · intro hx
                have hfc : findChild pch name = none := by
                  rw [hpch]
                  rfl
                rw [saveFileSync_create hi hm hR hr hg hfc]
                constructor
                · have hg2 := getPathTarget_modifyDirAt
                    (g := fun cs => cs ++ [FsNode.file name p (some c)]) hg
                  rw [nodeAt_eq_findChild hm hg2, hlast]
                  have hfind : findChild (pch ++ [FsNode.file name p (some c)]) name
                      = some (.file name p (some c)) := by
                    rw [findChild_append_none hfc]
                    exact findChild_cons_pos rfl
                  exact hfind
                · refine ⟨(ensureDirs (.dir rn rf rcs) ((getPathNodes p).dropLast)).2.1,
                    rfl, ?_⟩
                  exact ensureDirs_events_dirCreated

theorem saveFile_three_cases_witness :
    (saveFileSync noIgnore emptyRoot "a/b.txt" "hi").2.2 = none ∧
    nodeAt emptyRoot "a/b.txt" = none ∧
    nodeAt c1Store "a/b.txt" = some (.file "b.txt" "a/b.txt" (some "hi")) ∧
    (saveFileSync noIgnore emptyRoot "a/b.txt" "hi").2.1
      = [FsEvent.directoryCreated "a"] ++ [FsEvent.fileCreated "a/b.txt" "hi"] := by
  refine ⟨rfl, rfl, ?_, rfl⟩
  have := ((saveFile_three_cases noIgnore "" "" [] "a/b.txt" "hi" rfl).2.2 rfl).1
  exact this

/-- C5 counterexample: on a store holding a file `f`, the path `f/y` is
non-ignored and non-root and no node exists at it, yet `saveFile` fails
with a type-mismatch error instead of creating the file, so the claim as
stated (quantifying only over non-ignored, non-root paths) is false. -/
theorem saveFile_no_node_may_fail_counterexample :
    noIgnore "f/y" = false ∧
    (getPathNodes "f/y").getLast? = some "y" ∧
    nodeAt fileBlockStore "f/y" = none ∧
    (saveFileSync noIgnore fileBlockStore "f/y" "c").2.2
      = some ("File is not a directory " ++ "f") ∧
    (saveFileSync noIgnore fileBlockStore "f/y" "c").1 = fileBlockStore :=
  ⟨rfl, rfl, rfl, rfl, rfl⟩

/-! ## The fullPath consistency invariant (C6) -/

mutual
/-- A node is path-consistent under parent full path `pp`: its `fullPath` is
the parent full path joined with its own name, recursively. -/
def nodeOk : String → FsNode → Bool
  | pp, .file n f _ => f = joinUnder pp n
  | pp, .dir n f cs => (f = joinUnder pp n) && nodesOk f cs

/-- All nodes of a children list are path-consistent under `pp`. -/
def nodesOk : String → List FsNode → Bool
  | _, [] => true
  | pp, c :: cs => nodeOk pp c && nodesOk pp cs
end

lemma nodesOk_iff {pp : String} {cs : List FsNode} :
    nodesOk pp cs = true ↔ ∀ c ∈ cs, nodeOk pp c = true := by
  induction cs with
  | nil => simp [nodesOk]
  | cons c cs ih => simp [nodesOk, Bool.and_eq_true, ih]

lemma nodeOk_dir_iff {pp n f : String} {cs : List FsNode} :
    nodeOk pp (.dir n f cs) = true ↔ f = joinUnder pp n ∧ nodesOk f cs = true := by
  simp [nodeOk, Bool.and_eq_true]

lemma nodeOk_file_iff {pp n f : String} {c : Option String} :
    nodeOk pp (.file n f c) = true ↔ f = joinUnder pp n := by
  simp [nodeOk]

lemma nodesOk_replaceChild {pp name : String} {cs : List FsNode} {sub : FsNode}
    (h : nodesOk pp cs = true) (hsub : nodeOk pp sub = true) :
    nodesOk pp (replaceChild cs name sub) = true := by
  rw [nodesOk_iff] at h ⊢
  intro x hx
  rcases mem_replaceChild hx with h1 | rfl
  · exact h x h1
  · exact hsub

lemma nodesOk_append_single {pp : String} {cs : List FsNode} {x : FsNode}
    (h : nodesOk pp cs = true) (hx : nodeOk pp x = true) :
    nodesOk pp (cs ++ [x]) = true := by
  rw [nodesOk_iff] at h ⊢
  intro y hy
  rcases List.mem_append.mp hy with h1 | h1
  · exact h y h1
  · rw [List.mem_singleton.mp h1]
    exact hx

lemma nodesOk_filter {pp : String} {cs : List FsNode} {pred : FsNode → Bool}
    (h : nodesOk pp cs = true) : nodesOk pp (cs.filter pred) = true := by
  rw [nodesOk_iff] at h ⊢
  intro x hx
  exact h x (List.mem_of_mem_filter hx)

lemma getPathTarget_nodeOk {l : List String} {t d : FsNode} {pp : String}
    (ht : nodeOk pp t = true) (h : getPathTarget t l = some d) :
    ∃ q, nodeOk q d = true := by
  induction l generalizing t pp with
  | nil =>
    simp only [getPathTarget, Option.some.injEq] at h
    exact ⟨pp, h ▸ ht⟩
  | cons name rest ih =>
    cases t with
    | file n f c => simp [getPathTarget] at h
    | dir n f cs =>
      cases hf : findChild cs name with
      | none => rw [getPathTarget_cons_none hf] at h; exact absurd h (by simp)
      | some child =>
        cases child with
        | file fn ff fc => rw [getPathTarget_cons_file hf] at h; exact absurd h (by simp)
        | dir a b c2 =>
          rw [getPathTarget_cons_dir hf] at h
          have hcs : nodesOk f cs = true := (nodeOk_dir_iff.mp ht).2
          have hchild : nodeOk f (.dir a b c2) = true :=
            nodesOk_iff.mp hcs _ (findChild_some hf).1
          exact ih hchild h

lemma getPathTarget_fullPath {l : List String} {t d : FsNode} {pp : String}
    (ht : nodeOk pp t = true) (h : getPathTarget t l = some d) :
    d.fullPath = List.foldl joinUnder t.fullPath l := by
  induction l generalizing t pp with
  | nil =>
    simp only [getPathTarget, Option.some.injEq] at h
    rw [← h]
    rfl
  | cons name rest ih =>
    cases t with
    | file n f c => simp [getPathTarget] at h
    | dir n f cs =>
      cases hf : findChild cs name with
      | none => rw [getPathTarget_cons_none hf] at h; exact absurd h (by simp)
      | some child =>
        cases child with
        | file fn ff fc => rw [getPathTarget_cons_file hf] at h; exact absurd h (by simp)
        | dir a b c2 =>
          rw [getPathTarget_cons_dir hf] at h
          have hcs : nodesOk f cs = true := (nodeOk_dir_iff.mp ht).2
          have hchild : nodeOk f (.dir a b c2) = true :=
            nodesOk_iff.mp hcs _ (findChild_some hf).1
          have hname : a = name := by
            simpa [FsNode.name] using (findChild_some hf).2
          have hb : b = joinUnder f a := (nodeOk_dir_iff.mp hchild).1
          have := ih hchild h
          rw [this]
          simp only [FsNode.fullPath, List.foldl_cons]
          rw [hb, hname]

lemma nodeOk_modifyDirAt {l : List String} {t : FsNode} {pp dn df : String}
    {dcs : List FsNode} {g : List FsNode → List FsNode}
    (ht : nodeOk pp t = true) (hg : getPathTarget t l = some (.dir dn df dcs))
    (hgood : nodesOk df (g dcs) = true) :
    nodeOk pp (modifyDirAt t l g) = true := by
  induction l generalizing t pp with
  | nil =>
    simp only [getPathTarget, Option.some.injEq] at hg
    subst hg
    rw [nodeOk_dir_iff] at ht
    show nodeOk pp (FsNode.dir dn df (g dcs)) = true
    rw [nodeOk_dir_iff]
    exact ⟨ht.1, hgood⟩
  | cons name rest ih =>
    cases t with
    | file n f c => simp [getPathTarget] at hg
    | dir n f cs =>
      cases hf : findChild cs name with
      | none => rw [getPathTarget_cons_none hf] at hg; exact absurd hg (by simp)
      | some child =>
        cases child with
        | file fn ff fc => rw [getPathTarget_cons_file hf] at hg; exact absurd hg (by simp)
        | dir a b c2 =>
          rw [getPathTarget_cons_dir hf] at hg
          rw [modifyDirAt_cons hf]
          rw [nodeOk_dir_iff] at ht
          have hchild : nodeOk f (.dir a b c2) = true :=
            nodesOk_iff.mp ht.2 _ (findChild_some hf).1
          rw [nodeOk_dir_iff]
          exact ⟨ht.1, nodesOk_replaceChild ht.2 (ih hchild hg)⟩

lemma nodeOk_ensureDirs {l : List String} {q n f : String} {u : List FsNode}
    (ht : nodeOk q (.dir n f u) = true) :
    nodeOk q (ensureDirs (.dir n f u) l).1 = true := by
  induction l generalizing q n f u with
  | nil => exact ht
  | cons name rest ih =>
    cases hf : findChild u name with
    | none =>
      rw [ensureDirs_cons_new hf]
      rw [nodeOk_dir_iff] at ht ⊢
      refine ⟨ht.1, nodesOk_append_single ht.2 ?_⟩
      refine ih ?_
      rw [nodeOk_dir_iff]
      exact ⟨rfl, rfl⟩
    | some child =>
      cases child with
      | file fn ff fc => rw [ensureDirs_cons_file hf]; exact ht
      | dir a b c2 =>
        rw [ensureDirs_cons_existing hf]
        rw [nodeOk_dir_iff] at ht ⊢
        have hchild : nodeOk f (.dir a b c2) = true :=
          nodesOk_iff.mp ht.2 _ (findChild_some hf).1
        refine ⟨ht.1, nodesOk_replaceChild ht.2 ?_⟩
        have hrec := ih (q := f) (n := a) (f := b) (u := c2) hchild
        exact hrec

lemma foldl_joinUnder_eq_joinPath {l : List String}
    (h : ∀ x ∈ l, x.data ≠ []) :
    List.foldl joinUnder "" l = joinPath l := by
  induction l using List.reverseRecOn with
  | nil => rfl
  | append_singleton l y ih =>
    rw [List.foldl_append]
    simp only [List.foldl_cons, List.foldl_nil]
    rw [ih (fun x hx => h x (by simp [hx]))]
    exact (joinPath_append_single (fun x hx => h x (by simp [hx]))).symm

/-- The C6 invariant on whole store states: the root is the directory with
empty name and empty path, and every node of the tree is path-consistent
(its `fullPath` is the separator-join of its ancestor names ending in its
own name). -/
def storeOk (root : FsNode) : Prop :=
  ∃ cs, root = FsNode.dir "" "" cs ∧ nodeOk "" root = true

/-- A path argument in canonical form: equal to the separator-join of its
parsed segments (no leading, trailing or repeated separators). -/
def canonicalPath (p : String) : Prop :=
  p = joinPath (getPathNodes p)

lemma storeOk_ensureDirectorySync (ign : String → Bool) (root : FsNode) (q : String)
    (hs : storeOk root) : storeOk (ensureDirectorySync ign root q).1 := by
  obtain ⟨rcs, hshape, hok⟩ := hs
  subst hshape
  unfold ensureDirectorySync
  by_cases hi : ign q = true
  · rw [if_pos hi]
    exact ⟨rcs, rfl, hok⟩
  · rw [if_neg hi]
    obtain ⟨cs2, hsh2⟩ := ensureDirs_shape
      (n := "") (f := "") (u := rcs) (l := getPathNodes q)
    exact ⟨cs2, hsh2, hsh2 ▸ nodeOk_ensureDirs hok⟩

lemma storeOk_modifyDirAt_of_nodesOk {rcs : List FsNode} {l : List String}
    {a b : String} {pch : List FsNode} {g : List FsNode → List FsNode}
    (hok : nodeOk "" (FsNode.dir "" "" rcs) = true)
    (hg : getPathTarget (FsNode.dir "" "" rcs) l = some (.dir a b pch))
    (hgood : nodesOk b (g pch) = true) :
    storeOk (modifyDirAt (FsNode.dir "" "" rcs) l g) := by
  obtain ⟨cs2, hsh⟩ := modifyDirAt_shape (n := "") (f := "") (u := rcs) (l := l) (g := g)
  exact ⟨cs2, hsh, nodeOk_modifyDirAt hok hg hgood⟩

lemma nodesOk_of_target {l : List String} {t : FsNode} {pp a b : String}
    {pch : List FsNode} (ht : nodeOk pp t = true)
    (hg : getPathTarget t l = some (.dir a b pch)) : nodesOk b pch = true := by
  obtain ⟨q, hq⟩ := getPathTarget_nodeOk ht hg
  exact (nodeOk_dir_iff.mp hq).2

lemma storeOk_deleteFileSync (ign : String → Bool) (root : FsNode) (q : String)
    (hs : storeOk root) : storeOk (deleteFileSync ign root q).1 := by
  obtain ⟨rcs, hshape, hok⟩ := hs
  subst hshape
  simp only [deleteFileSync]
  split
  next a b pch heq =>
    by_cases hlen : (getPathNodes q).length ≠ 0
    · rw [if_pos hlen] at heq
      split
      · exact ⟨rcs, rfl, hok⟩
      · split
        next fn ff fc hfc =>
          exact storeOk_modifyDirAt_of_nodesOk hok heq
            (nodesOk_filter (nodesOk_of_target hok heq))
        next => exact ⟨rcs, rfl, hok⟩
        next => exact ⟨rcs, rfl, hok⟩
    · rw [if_neg hlen] at heq
      exact absurd heq (by simp)
  next => exact ⟨rcs, rfl, hok⟩

lemma storeOk_deleteDirectorySync (ign : String → Bool) (root : FsNode)
    (q : String) (recursive : Bool) (hs : storeOk root) :
    storeOk (deleteDirectorySync ign root q recursive).1 := by
  obtain ⟨rcs, hshape, hok⟩ := hs
  subst hshape
  simp only [deleteDirectorySync]
  split
  · exact ⟨rcs, rfl, hok⟩
  · split
    next a b pch heq =>
      split
      · exact ⟨rcs, rfl, hok⟩
      · split
        next => exact ⟨rcs, rfl, hok⟩
        next dn df dcs hfc =>
          split
          · exact ⟨rcs, rfl, hok⟩
          · exact storeOk_modifyDirAt_of_nodesOk hok heq
              (nodesOk_filter (nodesOk_of_target hok heq))
        next => exact ⟨rcs, rfl, hok⟩
    next => exact ⟨rcs, rfl, hok⟩

lemma storeOk_saveFileSync (ign : String → Bool) (root : FsNode) (p c : String)
    (hs : storeOk root) (hp : canonicalPath p) :
    storeOk (saveFileSync ign root p c).1 := by
  by_cases hi : ign p = true
  · rw [saveFileSync_ignored hi]
    exact hs
  · cases hm : (getPathNodes p).getLast? with
    | none =>
      rw [saveFileSync_rootName hi hm]
      exact hs
    | some name =>
      have hsR : storeOk (ensureDirectorySync ign root
          (joinPath ((getPathNodes p).dropLast))).1 :=
        storeOk_ensureDirectorySync ign root _ hs
      cases hr : (ensureDirectorySync ign root
          (joinPath ((getPathNodes p).dropLast))).2.2 with
      | some e2 =>
        rw [saveFileSync_ensureFailed hi hm rfl hr]
        exact hsR
      | none =>
        obtain ⟨rcs2, hshape2, hok2⟩ := hsR
        cases hg : getPathTarget (ensureDirectorySync ign root
            (joinPath ((getPathNodes p).dropLast))).1 ((getPathNodes p).dropLast) with
        | none =>
          rw [saveFileSync_unexpected hi hm rfl hr hg]
          exact ⟨rcs2, hshape2, hok2⟩
        | some d =>
          rw [hshape2] at hg
          obtain ⟨a, b, pch, rfl⟩ := getPathTarget_isDir hg
          have hgq : getPathTarget (ensureDirectorySync ign root
              (joinPath ((getPathNodes p).dropLast))).1 ((getPathNodes p).dropLast)
              = some (.dir a b pch) := by rw [hshape2]; exact hg
          have hok2q : nodeOk "" (FsNode.dir "" "" rcs2) = true := by
            rw [← hshape2]
            exact hok2
          have hpch : nodesOk b pch = true := nodesOk_of_target hok2q hg
          have hb : b = joinPath ((getPathNodes p).dropLast) := by
            have := getPathTarget_fullPath hok2q hg
            simp only [FsNode.fullPath] at this
            rw [foldl_joinUnder_eq_joinPath
              (fun x hx => (getPathNodes_dropLast_seg x hx).1)] at this
            exact this
          have hp2 : p = joinUnder b name := by
            rw [hb, ← joinPath_append_single
              (fun x hx => (getPathNodes_dropLast_seg x hx).1),
              dropLast_append_getLast_of_getLast hm]
            exact hp
          cases hfc : findChild pch name with
          | none =>
            rw [saveFileSync_create hi hm rfl hr hgq hfc, hshape2]
            refine storeOk_modifyDirAt_of_nodesOk hok2q hg ?_
            refine nodesOk_append_single hpch ?_
            rw [nodeOk_file_iff]
            exact hp2
          | some child =>
            cases child with
            | dir dn df dcs =>
              rw [saveFileSync_dirAtName hi hm rfl hr hgq hfc]
              exact ⟨rcs2, hshape2, hok2⟩
            | file fn ff fc =>
              by_cases heq : fc = some c
              · rw [saveFileSync_sameContent hi hm rfl hr hgq hfc heq]
                exact ⟨rcs2, hshape2, hok2⟩
              · rw [saveFileSync_update hi hm rfl hr hgq hfc heq, hshape2]
                refine storeOk_modifyDirAt_of_nodesOk hok2q hg ?_
                refine nodesOk_replaceChild hpch ?_
                rw [nodeOk_file_iff]
                have : nodeOk b (FsNode.file fn ff fc) = true :=
                  nodesOk_iff.mp hpch _ (findChild_some hfc).1
                exact nodeOk_file_iff.mp this

/-- States reachable from the fresh store through the contract mutations,
with every `saveFile` path argument in canonical form (the amendment C6
needs: `saveFileSync` stores its raw string argument as the new file node
fullPath, so a non-canonical argument breaks the invariant — see the
counterexample). -/
inductive ReachableC : (String → Bool) → FsNode → Prop where
  | empty (ign : String → Bool) : ReachableC ign emptyRoot
  | save {ign : String → Bool} {r : FsNode} (p c : String)
      (hp : canonicalPath p) (h : ReachableC ign r) :
      ReachableC ign (saveFileSync ign r p c).1
  | ensure {ign : String → Bool} {r : FsNode} (p : String) (h : ReachableC ign r) :
      ReachableC ign (ensureDirectorySync ign r p).1
  | delFile {ign : String → Bool} {r : FsNode} (p : String) (h : ReachableC ign r) :
      ReachableC ign (deleteFileSync ign r p).1
  | delDir {ign : String → Bool} {r : FsNode} (p : String) (recursive : Bool)
      (h : ReachableC ign r) :
      ReachableC ign (deleteDirectorySync ign r p recursive).1

/-- C6 (amended): in every store state reachable through the contract
mutations — with the restriction the counterexample forces, that each
`saveFile` path argument is in canonical form — the root is the directory
with empty name and path and every node\'s `fullPath` is the join of its
ancestors\' names ending with its own name, with the canonical separator;
every mutation preserves this. -/
theorem fullPath_invariant (ign : String → Bool) (root : FsNode)
    (h : ReachableC ign root) : storeOk root := by
  induction h with
  | empty => exact ⟨[], rfl, rfl⟩
  | save p c hp h ih => exact storeOk_saveFileSync _ _ p c ih hp
  | ensure p h ih => exact storeOk_ensureDirectorySync _ _ p ih
  | delFile p h ih => exact storeOk_deleteFileSync _ _ p ih
  | delDir p recursive h ih => exact storeOk_deleteDirectorySync _ _ p recursive ih

theorem fullPath_invariant_witness :
    storeOk c1Store ∧ nodeOk "" c1Store = true :=
  ⟨fullPath_invariant noIgnore c1Store
      (ReachableC.save "a/b.txt" "hi" (by unfold canonicalPath; decide)
        (ReachableC.empty noIgnore)),
    rfl⟩

/-- C6 counterexample: the claim quantifies over any input path strings,
but one `saveFile` call with the non-canonical path `/a` (reachable through
the contract operations) stores the raw argument string as the file node
fullPath, which differs from the join of its ancestor names (`a`). -/
theorem fullPath_invariant_counterexample :
    (saveFileSync noIgnore emptyRoot "/a" "x").1
      = .dir "" "" [.file "a" "/a" (some "x")] ∧
    nodeOk "" (.dir "" "" [.file "a" "/a" (some "x")]) = false ∧
    joinUnder "" "a" = "a" :=
  ⟨rfl, by decide, rfl⟩

end ReactiveFs

